import Mathlib

/-!
Verification of the result-aggregation and contact-discovery pipeline of
src/scraper.py (functions scrape_email_from_website, enrich_with_emails,
GooglePlacesScraper.search_places, GooglePlacesScraper.get_place_details,
GooglePlacesScraper.enrich_with_details and their helper predicates).

Modelling conventions, stated once here:
* Python str values are Lean String values.  The Python string primitives
  used by the code (lower, strip, startswith, endswith, substring `in`,
  slicing, split) are re-implemented below by structural recursion over the
  character list of the string, so that every definition evaluates inside
  the kernel.  lower is modelled on ASCII letters, which covers every
  constant the code compares against.
* Network transport, HTML parsing (BeautifulSoup) and the regular-expression
  scan (re.findall) are external collaborators.  A fetched page is therefore
  modelled by its HTTP status, its Content-Type header, the href values of
  its anchor tags in document order, and the raw-text regex matches in
  document order; a failed request (requests.RequestException) is `none`.
* A Python set of strings is modelled as the insertion-ordered duplicate-free
  list of its elements (first insertion wins).  CPython iterates a set in an
  unspecified hash order; the insertion order used here is one admissible
  enumeration, and no theorem below claims more about the enumeration than
  the code guarantees.
* Python dicts carrying business records are modelled as association lists
  with the dict update / assignment / get semantics spelled out below.
* The upstream Places API is modelled by the sequence of responses it would
  hand to the successive page requests of one aggregation call; raising
  RuntimeError is modelled by Except.error carrying the message string.
-/

namespace Scraper

/-! ### String primitives (ASCII models of the Python str operations) -/

/-- ASCII lower-casing of one character, the case used by the code. -/
def lowerChar (c : Char) : Char :=
  match c with
  | 'A' => 'a' | 'B' => 'b' | 'C' => 'c' | 'D' => 'd' | 'E' => 'e' | 'F' => 'f'
  | 'G' => 'g' | 'H' => 'h' | 'I' => 'i' | 'J' => 'j' | 'K' => 'k' | 'L' => 'l'
  | 'M' => 'm' | 'N' => 'n' | 'O' => 'o' | 'P' => 'p' | 'Q' => 'q' | 'R' => 'r'
  | 'S' => 's' | 'T' => 't' | 'U' => 'u' | 'V' => 'v' | 'W' => 'w' | 'X' => 'x'
  | 'Y' => 'y' | 'Z' => 'z' | other => other

/-- Python str.lower (ASCII model). -/
def lowerStr (s : String) : String := ⟨s.data.map lowerChar⟩

/-- Containment of `pat` as a contiguous substring, i.e. Python `pat in s`. -/
def isInfixList (pat : List Char) : List Char → Bool
  | [] => pat.isEmpty
  | c :: rest => pat.isPrefixOf (c :: rest) || isInfixList pat rest

/-- Python `pat in s` on strings. -/
def substrIn (pat s : String) : Bool := isInfixList pat.data s.data

/-- Python str.strip (whitespace at both ends). -/
def trimStr (s : String) : String :=
  ⟨((s.data.dropWhile Char.isWhitespace).reverse.dropWhile Char.isWhitespace).reverse⟩

/-- Python str.startswith. -/
def startsWithStr (pre s : String) : Bool := pre.data.isPrefixOf s.data

/-- Python str.endswith. -/
def endsWithStr (suf s : String) : Bool := suf.data.isSuffixOf s.data

/-- The part of `email` after its last `@`, i.e. the domain component of
`email.rsplit("@", 1)`; the whole string when no `@` occurs. -/
def domainOf (email : String) : String :=
  ⟨(email.data.reverse.takeWhile (fun c => c ≠ '@')).reverse⟩

/-- The part of `email` before its first `@`, i.e. `email.split("@")[0]`. -/
def localOf (email : String) : String := ⟨email.data.takeWhile (fun c => c ≠ '@')⟩

/-- Split at the first occurrence of `sep`: the characters before it and the
characters after it, or `none` when `sep` does not occur. -/
def breakOnSeparator (sep : List Char) : List Char → Option (List Char × List Char)
  | [] => if sep.isEmpty then some ([], []) else none
  | c :: rest =>
    if sep.isPrefixOf (c :: rest) then some ([], (c :: rest).drop sep.length)
    else
      match breakOnSeparator sep rest with
      | some (pre, post) => some (c :: pre, post)
      | none => none

/-- Python string comparison (code-point lexicographic) on character lists. -/
def lexLtChars : List Char → List Char → Bool
  | [], [] => false
  | [], _ :: _ => true
  | _ :: _, [] => false
  | a :: as, b :: bs =>
    if a.toNat < b.toNat then true else if b.toNat < a.toNat then false else lexLtChars as bs

/-- Python `a < b` on strings. -/
def lexLt (a b : String) : Bool := lexLtChars a.data b.data

/-! ### Constants of scraper.py (lines 78 to 98) -/

/-- _GENERIC_PREFIXES: generic local-part tokens that get deprioritised. -/
def _GENERIC_PREFIXES : List String :=
  ["noreply", "no-reply", "donotreply", "do-not-reply",
   "postmaster", "mailer-daemon", "bounce", "webmaster"]

/-- _DOMAIN_BLACKLIST: technical or platform domains excluded entirely. -/
def _DOMAIN_BLACKLIST : List String :=
  ["sentry.io", "example.com", "test.com", "wixpress.com",
   "amazonaws.com", "cloudflare.com", "google.com",
   "facebook.com", "instagram.com", "twitter.com", "linkedin.com",
   "2x.png", "3x.png"]

/-- _FAKE_TLDS: file extensions that are never email domains. -/
def _FAKE_TLDS : List String :=
  [".png", ".jpg", ".gif", ".svg", ".js", ".css", ".woff", ".ttf"]

/-- _CONTACT_PATHS: contact pages probed when the main page yields nothing. -/
def _CONTACT_PATHS : List String :=
  ["/contact", "/contact-us", "/nous-contacter",
   "/contactez-nous", "/about", "/a-propos"]

/-! ### Email validation and ranking (scraper.py lines 111 to 132) -/

/-- _is_valid_email from scraper.py: lower-case and strip, require an `@`,
reject fake file-extension domains, blacklisted domains and dot-free
domains. -/
def _is_valid_email (email0 : String) : Bool :=
  let email := trimStr (lowerStr email0)
  if substrIn "@" email = false then false
  else
    let domain := domainOf email
    if _FAKE_TLDS.any (fun ext => endsWithStr ext domain) then false
    else if _DOMAIN_BLACKLIST.any (fun bl => substrIn bl domain) then false
    else if substrIn "." domain = false then false
    else true

/-- _email_priority from scraper.py: 1 when the local part contains a generic
token, 0 (best) otherwise. -/
def _email_priority (email : String) : Nat :=
  let localPart := lowerStr (localOf email)
  if _GENERIC_PREFIXES.any (fun g => substrIn g localPart) then 1 else 0

/-- Stable insertion of `e` behind earlier elements of equal priority; the
building block of the stable sort below. -/
def insertByPriority (e : String) : List String → List String
  | [] => [e]
  | x :: xs =>
    if _email_priority e ≤ _email_priority x then e :: x :: xs
    else x :: insertByPriority e xs

/-- Python sorted(found, key=_email_priority): a stable ascending sort of the
candidate enumeration by priority score. -/
def sortedByPriority (found : List String) : List String := found.foldr insertByPriority []

/-- sorted(found, key=_email_priority)[0]: the selected best candidate. -/
def selectBest (found : List String) : String := (sortedByPriority found).headD ""

/-! ### One probed page (scraper.py lines 160 to 191) -/

/-- A fetched page as the email-discovery loop observes it: HTTP status,
Content-Type header, anchor href values in document order, regex matches on
the raw HTML in document order. -/
structure Page where
  status : Nat
  contentType : String
  anchorHrefs : List String
  textMatches : List String
deriving DecidableEq

/-- Set insertion, first occurrence wins: found.add(e). -/
def setAdd (found : List String) (e : String) : List String :=
  if e ∈ found then found else found ++ [e]

/-- The candidate produced by one anchor tag: href must start with mailto:
(case-insensitively); the address is the part after the scheme, cut at an
optional `?`, stripped and lower-cased, and must pass validation. -/
def anchorCandidate (href : String) : Option String :=
  if startsWithStr "mailto:" (lowerStr href) then
    let email := lowerStr (trimStr ⟨(href.data.drop 7).takeWhile (fun c => c ≠ '?')⟩)
    if _is_valid_email email then some email else none
  else none

/-- The candidate produced by one raw-text regex match: lower-cased, and must
pass validation. -/
def patternCandidate (m : String) : Option String :=
  if _is_valid_email (lowerStr m) then some (lowerStr m) else none

/-- The `found` set of one page: valid anchor candidates in document order,
then valid pattern candidates in document order, first occurrence kept. -/
def pageCandidates (resp : Page) : List String :=
  ((resp.anchorHrefs.filterMap anchorCandidate)
    ++ (resp.textMatches.filterMap patternCandidate)).foldl setAdd []

/-- The page loop of scrape_email_from_website: skip a failed request, a
non-200 status, a non-HTML content type or a page with no valid candidate;
stop at the first page with a valid candidate and return the best one. -/
def probe (fetch : String → Option Page) : List String → String
  | [] => ""
  | page_url :: rest =>
    match fetch page_url with
    | none => probe fetch rest
    | some resp =>
      if resp.status ≠ 200 then probe fetch rest
      else if substrIn "text/html" resp.contentType = false then probe fetch rest
      else
        let found := pageCandidates resp
        if found = [] then probe fetch rest
        else selectBest found

/-- The scheme://netloc origin of a URL, i.e. the base the code builds from
urlparse; modelled for the well-formed http(s) URLs the guard admits. -/
def origin (url : String) : String :=
  match breakOnSeparator "://".data url.data with
  | some (scheme, rest) =>
    (⟨scheme⟩ : String) ++ "://" ++ (⟨rest.takeWhile (fun c => c ≠ '/')⟩ : String)
  | none => "://"

/-- scrape_email_from_website from scraper.py: empty or non-http input gives
the empty string; otherwise the root URL and then the fixed contact paths
resolved against the origin are probed in order.  urljoin of the origin with
an absolute path is concatenation. -/
def scrape_email_from_website (fetch : String → Option Page) (url : String) : String :=
  if url = "" ∨ startsWithStr "http" url = false then ""
  else probe fetch (url :: _CONTACT_PATHS.map (fun p => origin url ++ p))

/-! ### Record dictionaries and the email batch (scraper.py lines 200 to 221) -/

/-- A raw business-record dict, as an association list of string fields. -/
abbrev RecordDict := List (String × String)

/-- Python place.get(k, dflt). -/
def dictGet (d : RecordDict) (k dflt : String) : String := (d.lookup k).getD dflt

/-- Python dict assignment place[k] = v: overwrite in place when the key
exists, append otherwise. -/
def dictSet (d : RecordDict) (k v : String) : RecordDict :=
  if (d.lookup k).isSome then d.map (fun kv => if kv.1 = k then (k, v) else kv)
  else d ++ [(k, v)]

/-- Python dict.update(other): overwrite the fields present in `other`,
keep the rest, append the new keys of `other` in order. -/
def dictUpdate (d other : RecordDict) : RecordDict :=
  (d.map (fun kv =>
    match other.lookup kv.1 with
    | some v => (kv.1, v)
    | none => kv))
  ++ other.filter (fun kv => (d.lookup kv.1).isNone)

/-- The loop body of enrich_with_emails: set the email field of every record
from its websiteUri and report progress (current, total) after each record.
The second component collects the progress-callback invocations. -/
def enrichEmailsLoop (fetch : String → Option Page) (total : Nat) :
    Nat → List RecordDict → List RecordDict × List (Nat × Nat)
  | _, [] => ([], [])
  | i, place :: rest =>
    let website := dictGet place "websiteUri" ""
    let place2 := dictSet place "email" (scrape_email_from_website fetch website)
    let next := enrichEmailsLoop fetch total (i + 1) rest
    (place2 :: next.1, (i + 1, total) :: next.2)

/-- enrich_with_emails from scraper.py. -/
def enrich_with_emails (fetch : String → Option Page) (places : List RecordDict) :
    List RecordDict × List (Nat × Nat) :=
  enrichEmailsLoop fetch places.length 0 places

/-! ### Aggregation (scraper.py lines 246 to 356) -/

/-- One aggregated place record, projected onto the fields the aggregation
logic reads: place.get("id"), the displayName text, and
place.get("userRatingCount", 0).  The record travels whole; nothing else
about it influences the loop. -/
structure Place where
  id : Option String
  displayName : String
  userRatingCount : Option Nat
deriving DecidableEq

/-- The id key used for deduplication: place.get("id") with None as "". -/
def placeKey (p : Place) : String := p.id.getD ""

/-- _is_excluded from scraper.py: some excluded keyword occurs in the
lower-cased name. -/
def _is_excluded (name : String) (excluded : List String) : Bool :=
  let name_lower := lowerStr name
  excluded.any (fun kw => substrIn kw name_lower)

/-- The keyword normalisation at the top of search_places: lower-case and
strip every keyword, drop the ones that strip to nothing. -/
def normalizeExcluded (excluded_keywords : List String) : List String :=
  (excluded_keywords.filter (fun kw => trimStr kw ≠ "")).map (fun kw => trimStr (lowerStr kw))

/-- The response the upstream hands to one page request: a result page with
an optional continuation token, an HTTP-level error (raise_for_status), or a
network-level error (requests.RequestException). -/
inductive FetchOutcome where
  | ok (places : List Place) (nextPageToken : Option String)
  | httpError (status : Nat) (text : String)
  | netError (msg : String)
deriving DecidableEq

/-- The message of the RuntimeError raised on requests.HTTPError, carrying
the upstream status code and response text. -/
def apiErrorMessage (status : Nat) (text : String) : String :=
  "Erreur Google Places API (" ++ (toString status ++ (") : " ++ text))

/-- The message of the RuntimeError raised on requests.RequestException. -/
def networkErrorMessage (msg : String) : String := "Erreur réseau : " ++ msg

/-- The per-page record loop of search_places (lines 330 to 347): skip a
record with a missing or already-seen id, skip on the name-exclusion filter,
skip on the review-count filter, otherwise record the id and append the
record. -/
def processPage (excluded : List String) (min_reviews : Nat) :
    List Place → List Place × List String → List Place × List String
  | [], acc => acc
  | place :: rest, acc =>
    let place_id := placeKey place
    if place_id = "" ∨ place_id ∈ acc.2 then
      processPage excluded min_reviews rest acc
    else if _is_excluded place.displayName excluded then
      processPage excluded min_reviews rest acc
    else if 0 < min_reviews ∧ place.userRatingCount.getD 0 < min_reviews then
      processPage excluded min_reviews rest acc
    else
      processPage excluded min_reviews rest (acc.1 ++ [place], acc.2 ++ [place_id])

/-- The pagination loop of search_places: while fewer results than
max_results have accumulated, issue the next request; an error response
raises; otherwise process the page and stop when no continuation token came
back or the page was empty; finally truncate to max_results.  The response
list is the sequence of upstream answers; when it is exhausted the run is
cut off with the same final truncation, so only executions that finish
within the supplied responses are modelled beyond that point. -/
def searchLoop (excluded : List String) (min_reviews max_results : Nat) :
    List FetchOutcome → List Place → List String → Except String (List Place)
  | responses, results, seen_ids =>
    if results.length < max_results then
      match responses with
      | [] => Except.ok (results.take max_results)
      | FetchOutcome.httpError status text :: _ => Except.error (apiErrorMessage status text)
      | FetchOutcome.netError msg :: _ => Except.error (networkErrorMessage msg)
      | FetchOutcome.ok places page_token :: rest =>
        let acc := processPage excluded min_reviews places (results, seen_ids)
        if page_token = none ∨ places = [] then Except.ok (acc.1.take max_results)
        else searchLoop excluded min_reviews max_results rest acc.1 acc.2
    else Except.ok (results.take max_results)

/-- search_places from scraper.py, over the modelled response sequence. -/
def search_places (excluded_keywords : List String) (max_results min_reviews : Nat)
    (responses : List FetchOutcome) : Except String (List Place) :=
  searchLoop (normalizeExcluded excluded_keywords) min_reviews max_results responses [] []

/-- The records of one upstream response: the places of a result page,
nothing for an error. -/
def pagePlaces : FetchOutcome → List Place
  | FetchOutcome.ok places _ => places
  | _ => []

/-- All records the upstream supplies across a response sequence, in page
return order. -/
def okStream (responses : List FetchOutcome) : List Place :=
  (responses.map pagePlaces).flatten

/-- Specification-side acceptance predicate of the result filter: the id is
present, the name-exclusion filter passes and the review-count filter
passes. -/
def acceptsPlace (excluded : List String) (min_reviews : Nat) (p : Place) : Bool :=
  if placeKey p = "" then false
  else if _is_excluded p.displayName excluded then false
  else if 0 < min_reviews ∧ p.userRatingCount.getD 0 < min_reviews then false
  else true

/-- The record that wins deduplication for the id of `p`: accepted by the
filters and carrying the same id. -/
def keyMatch (excluded : List String) (min_reviews : Nat) (p q : Place) : Bool :=
  acceptsPlace excluded min_reviews q && (placeKey q == placeKey p)

/-! ### Detail enrichment (scraper.py lines 358 to 416) -/

/-- The outcome of the Place Details request for one id: the returned field
dict, or any requests.RequestException (a raise_for_status error included). -/
inductive DetailOutcome where
  | success (details : RecordDict)
  | failure
deriving DecidableEq

/-- get_place_details from scraper.py: the response dict on success, the
empty dict on any request exception. -/
def get_place_details (detailsFor : String → DetailOutcome) (place_id : String) : RecordDict :=
  match detailsFor place_id with
  | DetailOutcome.success details => details
  | DetailOutcome.failure => []

/-- The loop body of enrich_with_details: look a record up by its id when it
has one and merge the details over it, then report progress; records without
an id are passed over but still reported.  The second component collects the
progress-callback invocations. -/
def enrichDetailsLoop (detailsFor : String → DetailOutcome) (total : Nat) :
    Nat → List RecordDict → List RecordDict × List (Nat × Nat)
  | _, [] => ([], [])
  | i, place :: rest =>
    let place_id := dictGet place "id" ""
    let place2 :=
      if place_id ≠ "" then dictUpdate place (get_place_details detailsFor place_id)
      else place
    let next := enrichDetailsLoop detailsFor total (i + 1) rest
    (place2 :: next.1, (i + 1, total) :: next.2)

/-- enrich_with_details from scraper.py. -/
def enrich_with_details (detailsFor : String → DetailOutcome) (places : List RecordDict) :
    List RecordDict × List (Nat × Nat) :=
  enrichDetailsLoop detailsFor places.length 0 places

/-! ### Helper lemmas: priority selection -/

/-- The priority score only takes the values 0 and 1. -/
lemma priority_zero_or_one (e : String) : _email_priority e = 0 ∨ _email_priority e = 1 := by
  by_cases h : (_GENERIC_PREFIXES.any (fun g => substrIn g (lowerStr (localOf e)))) = true
  · exact Or.inr (by simp [_email_priority, h])
  · exact Or.inl (by simp [_email_priority, h])

/-- A priority-0 candidate is inserted at the head. -/
lemma insertByPriority_of_zero {e : String} (l : List String) (h : _email_priority e = 0) :
    insertByPriority e l = e :: l := by
  cases l with
  | nil => rfl
  | cons x xs => simp [insertByPriority, h]

/-- Insertion permutes. -/
lemma insertByPriority_perm (e : String) (l : List String) :
    (insertByPriority e l).Perm (e :: l) := by
  induction l with
  | nil => exact List.Perm.refl _
  | cons x xs ih =>
    by_cases h : _email_priority e ≤ _email_priority x
    · simp [insertByPriority, h]
    · simp only [insertByPriority, if_neg h]
      exact (ih.cons x).trans (List.Perm.swap e x xs)

/-- The stable sort permutes. -/
lemma sortedByPriority_perm (l : List String) : (sortedByPriority l).Perm l := by
  induction l with
  | nil => exact List.Perm.refl _
  | cons x xs ih =>
    exact (insertByPriority_perm x (sortedByPriority xs)).trans (ih.cons x)

/-- The selected candidate is one of the candidates. -/
lemma selectBest_mem {l : List String} (h : l ≠ []) : selectBest l ∈ l := by
  cases hs : sortedByPriority l with
  | nil =>
    have := sortedByPriority_perm l
    rw [hs] at this
    exact absurd this.symm.eq_nil h
  | cons a as =>
    have ha : a ∈ sortedByPriority l := by rw [hs]; exact List.mem_cons_self a as
    have := (sortedByPriority_perm l).mem_iff.mp ha
    simpa [selectBest, hs] using this

/-- When every candidate has priority 1 the stable sort is the identity. -/
lemma sortedByPriority_all_one {l : List String} (h : ∀ x ∈ l, _email_priority x = 1) :
    sortedByPriority l = l := by
  induction l with
  | nil => rfl
  | cons x xs ih =>
    have hx : _email_priority x = 1 := h x (List.mem_cons_self x xs)
    have htl : sortedByPriority xs = xs := ih (fun y hy => h y (List.mem_cons_of_mem x hy))
    show insertByPriority x (sortedByPriority xs) = x :: xs
    rw [htl]
    cases xs with
    | nil => rfl
    | cons y ys =>
      have hy : _email_priority y = 1 := h y (List.mem_cons_of_mem x (List.mem_cons_self y ys))
      simp [insertByPriority, hx, hy]

/-- The head of the stable priority sort is the first priority-0 candidate in
enumeration order when one exists, else the first candidate. -/
lemma selectBest_characterization (l : List String) :
    selectBest l = ((l.find? (fun e => _email_priority e == 0)).getD (l.headD "")) := by
  induction l with
  | nil => rfl
  | cons x xs ih =>
    by_cases hx : _email_priority x = 0
    · have hfind : (x :: xs).find? (fun e => _email_priority e == 0) = some x :=
        List.find?_cons_of_pos _ (by simp [hx])
      rw [hfind]
      show (sortedByPriority (x :: xs)).headD "" = x
      show (insertByPriority x (sortedByPriority xs)).headD "" = x
      rw [insertByPriority_of_zero _ hx]
      rfl
    · have hx1 : _email_priority x = 1 := (priority_zero_or_one x).resolve_left hx
      have hfind : (x :: xs).find? (fun e => _email_priority e == 0)
          = xs.find? (fun e => _email_priority e == 0) :=
        List.find?_cons_of_neg _ (by simp [hx])
      rw [hfind]
      cases hf : xs.find? (fun e => _email_priority e == 0) with
      | some e =>
        have he0 : _email_priority e = 0 := by simpa using List.find?_some hf
        have hemem : e ∈ xs := List.mem_of_find?_eq_some hf
        rw [hf] at ih
        simp only [Option.getD_some] at ih
        have hne : sortedByPriority xs ≠ [] := by
          intro h0
          have hperm := sortedByPriority_perm xs
          rw [h0] at hperm
          rw [hperm.symm.eq_nil] at hemem
          exact absurd hemem (List.not_mem_nil e)
        obtain ⟨y, ys, hys⟩ := List.exists_cons_of_ne_nil hne
        have hy : y = e := by
          have : selectBest xs = y := by simp [selectBest, hys]
          rw [ih] at this
          exact this.symm
        show (insertByPriority x (sortedByPriority xs)).headD "" = e
        rw [hys, hy]
        have hle : ¬ (_email_priority x ≤ _email_priority e) := by
          rw [hx1, he0]; omega
        simp [insertByPriority, hle]
      | none =>
        have hall : ∀ y ∈ x :: xs, _email_priority y = 1 := by
          intro y hy
          rcases List.mem_cons.mp hy with h | h
          · rw [h]; exact hx1
          · have := List.find?_eq_none.mp hf y h
            rcases priority_zero_or_one y with h0 | h1
            · exact absurd (by simp [h0]) this
            · exact h1
        show (sortedByPriority (x :: xs)).headD "" = ((x :: xs).headD "")
        rw [sortedByPriority_all_one hall]

/-! ### Helper lemmas: page candidates and probing -/

/-- Membership after folding set insertions comes from the accumulator or the
inserted elements. -/
lemma mem_foldl_setAdd (l : List String) :
    ∀ (acc : List String) (e : String), e ∈ l.foldl setAdd acc → e ∈ acc ∨ e ∈ l := by
  induction l with
  | nil => intro acc e h; exact Or.inl h
  | cons x xs ih =>
    intro acc e h
    rcases ih (setAdd acc x) e h with h1 | h1
    · by_cases hx : x ∈ acc
      · simp only [setAdd, if_pos hx] at h1
        exact Or.inl h1
      · simp only [setAdd, if_neg hx] at h1
        rcases List.mem_append.mp h1 with h2 | h2
        · exact Or.inl h2
        · simp at h2
          exact Or.inr (by rw [h2]; exact List.mem_cons_self x xs)
    · exact Or.inr (List.mem_cons_of_mem x h1)

/-- Every candidate a page yields passed validation. -/
lemma pageCandidates_valid (resp : Page) :
    ∀ e ∈ pageCandidates resp, _is_valid_email e = true := by
  intro e he
  rcases mem_foldl_setAdd _ [] e he with h | h
  · exact absurd h (List.not_mem_nil e)
  rcases List.mem_append.mp h with h1 | h1
  · obtain ⟨href, _, hc⟩ := List.mem_filterMap.mp h1
    simp only [anchorCandidate, Option.ite_none_right_eq_some, Option.some.injEq] at hc
    obtain ⟨_, hval, hEq⟩ := hc
    rw [← hEq]
    exact hval
  · obtain ⟨m, _, hc⟩ := List.mem_filterMap.mp h1
    simp only [patternCandidate, Option.ite_none_right_eq_some, Option.some.injEq] at hc
    obtain ⟨hval, hEq⟩ := hc
    rw [← hEq]
    exact hval

/-- One step of the probe loop, with the match and guards exposed. -/
lemma probe_cons (fetch : String → Option Page) (u : String) (rest : List String) :
    probe fetch (u :: rest) =
      match fetch u with
      | none => probe fetch rest
      | some resp =>
        if resp.status ≠ 200 then probe fetch rest
        else if substrIn "text/html" resp.contentType = false then probe fetch rest
        else if pageCandidates resp = [] then probe fetch rest
        else selectBest (pageCandidates resp) := rfl

/-- The probe loop returns the empty string or a validated candidate. -/
lemma probe_empty_or_valid (fetch : String → Option Page) (pages : List String) :
    probe fetch pages = "" ∨ _is_valid_email (probe fetch pages) = true := by
  induction pages with
  | nil => exact Or.inl rfl
  | cons u rest ih =>
    rw [probe_cons]
    cases hf : fetch u with
    | none => exact ih
    | some resp =>
      by_cases h200 : resp.status ≠ 200
      · simpa [h200] using ih
      · by_cases hct : substrIn "text/html" resp.contentType = false
        · simpa [h200, hct] using ih
        · by_cases hfound : pageCandidates resp = []
          · simpa [h200, hct, hfound] using ih
          · right
            show _is_valid_email (if resp.status ≠ 200 then probe fetch rest
                else if substrIn "text/html" resp.contentType = false then probe fetch rest
                else if pageCandidates resp = [] then probe fetch rest
                else selectBest (pageCandidates resp)) = true
            have : (if resp.status ≠ 200 then probe fetch rest
                else if substrIn "text/html" resp.contentType = false then probe fetch rest
                else if pageCandidates resp = [] then probe fetch rest
                else selectBest (pageCandidates resp)) = selectBest (pageCandidates resp) := by
              simp [h200, hct, hfound]
            rw [this]
            exact pageCandidates_valid resp _ (selectBest_mem hfound)

/-- scrape_email_from_website returns the empty string or a validated
candidate. -/
lemma scrape_empty_or_valid (fetch : String → Option Page) (url : String) :
    scrape_email_from_website fetch url = ""
    ∨ _is_valid_email (scrape_email_from_website fetch url) = true := by
  unfold scrape_email_from_website
  split
  · exact Or.inl rfl
  · exact probe_empty_or_valid fetch _

/-! ### Fixtures for witnesses and counterexamples -/

/-- A page carrying the spec example pair contact@business.com (priority 0)
and noreply@business.com (priority 1). -/
def prioPage : Page :=
  ⟨200, "text/html", ["mailto:contact@business.com", "mailto:noreply@business.com"], []⟩

/-- A fetch that answers every URL with prioPage. -/
def prioFetch : String → Option Page := fun _ => some prioPage

/-- A page with two valid priority-0 anchor candidates, the lexicographically
larger one first in document order. -/
def cexPage : Page := ⟨200, "text/html", ["mailto:zz@biz.fr", "mailto:aa@biz.fr"], []⟩

/-- A fetch that answers every URL with cexPage. -/
def cexFetch : String → Option Page := fun _ => some cexPage

/-- A homepage with no candidate at all. -/
def emptyShopPage : Page := ⟨200, "text/html", [], []⟩

/-- A contact page carrying the single valid candidate info@shop.fr. -/
def shopContactPage : Page := ⟨200, "text/html", ["mailto:info@shop.fr"], []⟩

/-- A site whose homepage is empty and whose /contact page has the
candidate. -/
def shopFetch : String → Option Page := fun u =>
  if u = "http://shop.fr" then some emptyShopPage
  else if u = "http://shop.fr/contact" then some shopContactPage
  else none

/-! ### Claim C1 -/

/-- C1 (amended): on the page where discovery stops, the email returned is
the first valid priority-0 candidate in the candidate-set enumeration order
(anchor candidates in document order, then pattern candidates, first
occurrence kept) when any priority-0 candidate exists, else the first valid
candidate; and it is always one of the candidates of that page.  The tie-break
among candidates of equal priority is the set enumeration order, not
lexicographic order. -/
theorem C1_amended_first_by_priority (fetch : String → Option Page) (u : String)
    (rest : List String) (resp : Page)
    (hf : fetch u = some resp) (h200 : resp.status = 200)
    (hct : substrIn "text/html" resp.contentType = true)
    (hfound : pageCandidates resp ≠ []) :
    probe fetch (u :: rest)
      = ((pageCandidates resp).find? (fun e => _email_priority e == 0)).getD
          ((pageCandidates resp).headD "")
    ∧ probe fetch (u :: rest) ∈ pageCandidates resp := by
  have hstep : probe fetch (u :: rest) = selectBest (pageCandidates resp) := by
    rw [probe_cons, hf]
    simp [h200, hct, hfound]
  constructor
  · rw [hstep]
    exact selectBest_characterization _
  · rw [hstep]
    exact selectBest_mem hfound

/-- C1 witness: on the spec example page, priority 0 beats priority 1 and
contact@business.com is returned. -/
theorem C1_amended_first_by_priority_witness :
    probe prioFetch ["http://business.com"] = "contact@business.com" := by
  have h := C1_amended_first_by_priority prioFetch "http://business.com" [] prioPage
    rfl rfl (by decide) (by decide)
  exact h.1.trans (by decide)

/-- C1 counterexample: a stopping page holding the two valid priority-0
candidates zz@biz.fr and aa@biz.fr (in that document order) makes discovery
return zz@biz.fr, although aa@biz.fr is a valid priority-0 candidate of the
same page that is lexicographically smaller — so the returned address is not
the lexicographically smallest priority-0 candidate. -/
theorem C1_counterexample_not_lexicographic :
    scrape_email_from_website cexFetch "http://biz.fr" = "zz@biz.fr"
    ∧ "aa@biz.fr" ∈ pageCandidates cexPage
    ∧ _is_valid_email "aa@biz.fr" = true
    ∧ _email_priority "aa@biz.fr" = 0
    ∧ lexLt "aa@biz.fr" "zz@biz.fr" = true :=
  ⟨by decide, by decide, by decide, by decide, by decide⟩

/-! ### Claim C6 -/

/-- C6: scrape_email_from_website builds the probing list as the root URL
followed by the fixed contact paths resolved against the origin, in order;
the probe loop skips a failed, non-200, non-HTML or candidate-free page and
continues with the next one, and stops at the first page with a valid
candidate, never looking at the remaining pages (the result does not depend
on them). -/
theorem C6_probe_order_stop_first (fetch : String → Option Page) (url : String) :
    (url ≠ "" → startsWithStr "http" url = true →
      scrape_email_from_website fetch url
        = probe fetch (url :: _CONTACT_PATHS.map (fun p => origin url ++ p)))
    ∧ ∀ (u : String) (rest : List String),
        (fetch u = none → probe fetch (u :: rest) = probe fetch rest)
        ∧ (∀ resp : Page, fetch u = some resp →
            (resp.status ≠ 200 → probe fetch (u :: rest) = probe fetch rest)
            ∧ (substrIn "text/html" resp.contentType = false →
                probe fetch (u :: rest) = probe fetch rest)
            ∧ (resp.status = 200 → substrIn "text/html" resp.contentType = true →
                (pageCandidates resp = [] → probe fetch (u :: rest) = probe fetch rest)
                ∧ (pageCandidates resp ≠ [] →
                    probe fetch (u :: rest) = selectBest (pageCandidates resp)))) := by
  constructor
  · intro h1 h2
    unfold scrape_email_from_website
    rw [if_neg (by simp [h1, h2])]
  · intro u rest
    constructor
    · intro hf
      rw [probe_cons, hf]
    · intro resp hf
      refine ⟨?_, ?_, ?_⟩
      · intro hs
        rw [probe_cons, hf]
        simp [hs]
      · intro hctf
        rw [probe_cons, hf]
        simp [hctf]
      · intro h200 hct
        constructor
        · intro hempty
          rw [probe_cons, hf]
          simp [h200, hct, hempty]
        · intro hfound
          rw [probe_cons, hf]
          simp [h200, hct, hfound]

/-- C6 witness: the spec example — an empty homepage is passed over and the
candidate of the /contact page is returned. -/
theorem C6_probe_order_stop_first_witness :
    scrape_email_from_website shopFetch "http://shop.fr"
      = probe shopFetch
          ("http://shop.fr" :: _CONTACT_PATHS.map (fun p => origin "http://shop.fr" ++ p))
    ∧ probe shopFetch ["http://shop.fr", "http://shop.fr/contact"] = "info@shop.fr" := by
  constructor
  · exact (C6_probe_order_stop_first shopFetch "http://shop.fr").1 (by decide) (by decide)
  · have hskip := ((C6_probe_order_stop_first shopFetch "http://shop.fr").2 "http://shop.fr"
      ["http://shop.fr/contact"]).2 emptyShopPage (by decide)
    have h1 : probe shopFetch ["http://shop.fr", "http://shop.fr/contact"]
        = probe shopFetch ["http://shop.fr/contact"] :=
      (hskip.2.2 (by decide) (by decide)).1 (by decide)
    have hstop := ((C6_probe_order_stop_first shopFetch "http://shop.fr").2
      "http://shop.fr/contact" []).2 shopContactPage (by decide)
    have h2 : probe shopFetch ["http://shop.fr/contact"]
        = selectBest (pageCandidates shopContactPage) :=
      (hstop.2.2 (by decide) (by decide)).2 (by decide)
    exact h1.trans (h2.trans (by decide))

/-! ### Claim C7 -/

/-- C7: validation rejects a candidate whose domain (the part after the last
at-sign of the lower-cased, stripped address) ends with a known non-email
file extension, or contains a blacklisted platform domain as a substring, or
contains no dot; consequently discovery never returns banner@2x.png. -/
theorem C7_validation_rejects :
    (∀ email : String,
      (_FAKE_TLDS.any (fun ext => endsWithStr ext (domainOf (trimStr (lowerStr email)))) = true
       ∨ _DOMAIN_BLACKLIST.any
           (fun bl => substrIn bl (domainOf (trimStr (lowerStr email)))) = true
       ∨ substrIn "." (domainOf (trimStr (lowerStr email))) = false) →
      _is_valid_email email = false)
    ∧ ∀ (fetch : String → Option Page) (url : String),
        scrape_email_from_website fetch url ≠ "banner@2x.png" := by
  constructor
  · intro email h
    simp only [_is_valid_email]
    rcases h with h | h | h <;> simp [h]
  · intro fetch url heq
    rcases scrape_empty_or_valid fetch url with h | h
    · rw [heq] at h
      exact absurd h (by decide)
    · rw [heq] at h
      exact absurd h (by decide)

/-- C7 witness: banner@2x.png is rejected by the fake-extension rule. -/
theorem C7_validation_rejects_witness : _is_valid_email "banner@2x.png" = false :=
  C7_validation_rejects.1 "banner@2x.png" (Or.inl (by decide))

/-! ### Helper lemmas: aggregation -/

/-- One step of the per-page record loop, with the guards exposed. -/
lemma processPage_cons (excluded : List String) (minr : Nat) (place : Place)
    (rest res : List Place) (seen : List String) :
    processPage excluded minr (place :: rest) (res, seen) =
      if placeKey place = "" ∨ placeKey place ∈ seen then
        processPage excluded minr rest (res, seen)
      else if _is_excluded place.displayName excluded then
        processPage excluded minr rest (res, seen)
      else if 0 < minr ∧ place.userRatingCount.getD 0 < minr then
        processPage excluded minr rest (res, seen)
      else processPage excluded minr rest (res ++ [place], seen ++ [placeKey place]) := rfl

/-- One step of the pagination loop, with the branches exposed. -/
lemma searchLoop_step (excluded : List String) (minr maxr : Nat)
    (responses : List FetchOutcome) (res : List Place) (seen : List String) :
    searchLoop excluded minr maxr responses res seen =
      if res.length < maxr then
        match responses with
        | [] => Except.ok (res.take maxr)
        | FetchOutcome.httpError status text :: _ => Except.error (apiErrorMessage status text)
        | FetchOutcome.netError msg :: _ => Except.error (networkErrorMessage msg)
        | FetchOutcome.ok places page_token :: rest =>
          if page_token = none ∨ places = [] then
            Except.ok ((processPage excluded minr places (res, seen)).1.take maxr)
          else
            searchLoop excluded minr maxr rest
              (processPage excluded minr places (res, seen)).1
              (processPage excluded minr places (res, seen)).2
      else Except.ok (res.take maxr) := by
  cases responses with
  | nil => rfl
  | cons r rest =>
    cases r with
    | ok places page_token => rfl
    | httpError status text => rfl
    | netError msg => rfl

/-- find? over an append when the left part already finds a witness. -/
lemma find?_append_some {α : Type} {f : α → Bool} {l1 : List α} (l2 : List α) {a : α}
    (h : l1.find? f = some a) : (l1 ++ l2).find? f = some a := by
  induction l1 with
  | nil => simp at h
  | cons x xs ih =>
    cases hfx : f x with
    | true =>
      rw [List.find?_cons_of_pos _ hfx] at h
      rw [List.cons_append, List.find?_cons_of_pos _ hfx]
      exact h
    | false =>
      rw [List.find?_cons_of_neg _ (by simp [hfx])] at h
      rw [List.cons_append, List.find?_cons_of_neg _ (by simp [hfx])]
      exact ih h

/-- find? over an append when the left part finds nothing. -/
lemma find?_append_none {α : Type} {f : α → Bool} {l1 : List α} (l2 : List α)
    (h : l1.find? f = none) : (l1 ++ l2).find? f = l2.find? f := by
  induction l1 with
  | nil => rfl
  | cons x xs ih =>
    cases hfx : f x with
    | true => rw [List.find?_cons_of_pos _ hfx] at h; exact absurd h (by simp)
    | false =>
      rw [List.find?_cons_of_neg _ (by simp [hfx])] at h
      rw [List.cons_append, List.find?_cons_of_neg _ (by simp [hfx])]
      exact ih h

/-- Appending a fresh element preserves Nodup. -/
lemma nodup_snoc {α : Type} {l : List α} {a : α} (h1 : l.Nodup) (h2 : a ∉ l) :
    (l ++ [a]).Nodup := by
  simp [List.nodup_append, h1, h2]

/-- The Boolean acceptance predicate unfolded into its three conditions. -/
lemma acceptsPlace_true_iff (excluded : List String) (minr : Nat) (p : Place) :
    acceptsPlace excluded minr p = true ↔
      (placeKey p ≠ "" ∧ _is_excluded p.displayName excluded = false
       ∧ ¬(0 < minr ∧ p.userRatingCount.getD 0 < minr)) := by
  unfold acceptsPlace
  by_cases h1 : placeKey p = ""
  · simp [h1]
  · rw [if_neg h1]
    by_cases h2 : _is_excluded p.displayName excluded = true
    · simp [h1, h2]
    · rw [if_neg h2]
      by_cases h3 : 0 < minr ∧ p.userRatingCount.getD 0 < minr
      · simp [h1, h3, Bool.eq_false_iff.mpr h2]
      · simp [h1, h3, Bool.eq_false_iff.mpr h2]

/-- The records of the page at the head of the response stream. -/
lemma okStream_cons (r : FetchOutcome) (rest : List FetchOutcome) :
    okStream (r :: rest) = pagePlaces r ++ okStream rest := by
  simp [okStream]

/-- Invariant preservation of the per-page record loop: the seen set mirrors
the accumulated ids, ids stay duplicate-free, the accumulation is a sublist
of the record stream, each accumulated record is the first accepted record
of the stream with its id, and every accepted id of the stream has been
recorded. -/
lemma processPage_invariant (excluded : List String) (minr : Nat) :
    ∀ (ps stream res : List Place) (seen : List String),
      seen = res.map placeKey →
      (res.map placeKey).Nodup →
      res.Sublist stream →
      (∀ p ∈ res, stream.find? (keyMatch excluded minr p) = some p) →
      (∀ q ∈ stream, acceptsPlace excluded minr q = true → placeKey q ∈ seen) →
      ((processPage excluded minr ps (res, seen)).2
          = (processPage excluded minr ps (res, seen)).1.map placeKey
       ∧ ((processPage excluded minr ps (res, seen)).1.map placeKey).Nodup
       ∧ (processPage excluded minr ps (res, seen)).1.Sublist (stream ++ ps)
       ∧ (∀ p ∈ (processPage excluded minr ps (res, seen)).1,
            (stream ++ ps).find? (keyMatch excluded minr p) = some p)
       ∧ (∀ q ∈ stream ++ ps, acceptsPlace excluded minr q = true →
            placeKey q ∈ (processPage excluded minr ps (res, seen)).2)) := by
  intro ps
  induction ps with
  | nil =>
    intro stream res seen h1 h2 h3 h4 h5
    exact ⟨h1.symm ▸ rfl, h2, by simpa using h3, by simpa using h4, by simpa using h5⟩
  | cons place ps ih =>
    intro stream res seen h1 h2 h3 h4 h5
    rw [processPage_cons]
    by_cases hid : placeKey place = "" ∨ placeKey place ∈ seen
    · rw [if_pos hid]
      have h5new : ∀ q ∈ stream ++ [place], acceptsPlace excluded minr q = true →
          placeKey q ∈ seen := by
        intro q hq hacc
        rcases List.mem_append.mp hq with hq1 | hq1
        · exact h5 q hq1 hacc
        · have hq2 : q = place := by simpa using hq1
          subst hq2
          rcases hid with hid1 | hid1
          · exact absurd hid1 ((acceptsPlace_true_iff excluded minr q).mp hacc).1
          · exact hid1
      have hres := ih (stream ++ [place]) res seen h1 h2
        (h3.trans (List.sublist_append_left stream [place]))
        (fun p hp => find?_append_some [place] (h4 p hp)) h5new
      rw [List.append_assoc] at hres
      exact hres
    · rw [if_neg hid]
      push_neg at hid
      by_cases hex : _is_excluded place.displayName excluded = true
      · rw [if_pos hex]
        have h5new : ∀ q ∈ stream ++ [place], acceptsPlace excluded minr q = true →
            placeKey q ∈ seen := by
          intro q hq hacc
          rcases List.mem_append.mp hq with hq1 | hq1
          · exact h5 q hq1 hacc
          · have hq2 : q = place := by simpa using hq1
            subst hq2
            have := ((acceptsPlace_true_iff excluded minr q).mp hacc).2.1
            rw [hex] at this
            exact absurd this (by simp)
        have hres := ih (stream ++ [place]) res seen h1 h2
          (h3.trans (List.sublist_append_left stream [place]))
          (fun p hp => find?_append_some [place] (h4 p hp)) h5new
        rw [List.append_assoc] at hres
        exact hres
      · rw [if_neg hex]
        by_cases hrev : 0 < minr ∧ place.userRatingCount.getD 0 < minr
        · rw [if_pos hrev]
          have h5new : ∀ q ∈ stream ++ [place], acceptsPlace excluded minr q = true →
              placeKey q ∈ seen := by
            intro q hq hacc
            rcases List.mem_append.mp hq with hq1 | hq1
            · exact h5 q hq1 hacc
            · have hq2 : q = place := by simpa using hq1
              subst hq2
              exact absurd hrev ((acceptsPlace_true_iff excluded minr q).mp hacc).2.2
          have hres := ih (stream ++ [place]) res seen h1 h2
            (h3.trans (List.sublist_append_left stream [place]))
            (fun p hp => find?_append_some [place] (h4 p hp)) h5new
          rw [List.append_assoc] at hres
          exact hres
        · rw [if_neg hrev]
          have hacc : acceptsPlace excluded minr place = true :=
            (acceptsPlace_true_iff excluded minr place).mpr
              ⟨hid.1, Bool.eq_false_iff.mpr hex, hrev⟩
          have hkmm : keyMatch excluded minr place place = true := by
            simp [keyMatch, hacc]
          have hnone : stream.find? (keyMatch excluded minr place) = none := by
            rw [List.find?_eq_none]
            intro q hq hkq
            have hkq2 := (Bool.and_eq_true _ _).mp hkq
            have hkeys : placeKey q = placeKey place := by simpa using hkq2.2
            have := h5 q hq hkq2.1
            rw [hkeys] at this
            exact hid.2 this
          have h1new : seen ++ [placeKey place] = (res ++ [place]).map placeKey := by
            rw [List.map_append, h1]
            rfl
          have h2new : ((res ++ [place]).map placeKey).Nodup := by
            rw [List.map_append]
            exact nodup_snoc h2 (by rw [← h1]; exact hid.2)
          have h3new : (res ++ [place]).Sublist (stream ++ [place]) :=
            h3.append (List.Sublist.refl [place])
          have h4new : ∀ p ∈ res ++ [place],
              (stream ++ [place]).find? (keyMatch excluded minr p) = some p := by
            intro p hp
            rcases List.mem_append.mp hp with hp1 | hp1
            · exact find?_append_some [place] (h4 p hp1)
            · have hp2 : p = place := by simpa using hp1
              subst hp2
              rw [find?_append_none [p] hnone]
              exact List.find?_cons_of_pos _ hkmm
          have h5new : ∀ q ∈ stream ++ [place], acceptsPlace excluded minr q = true →
              placeKey q ∈ seen ++ [placeKey place] := by
            intro q hq hacc2
            rcases List.mem_append.mp hq with hq1 | hq1
            · exact List.mem_append_left _ (h5 q hq1 hacc2)
            · have hq2 : q = place := by simpa using hq1
              subst hq2
              exact List.mem_append_right _ (by simp)
          have hres := ih (stream ++ [place]) (res ++ [place]) (seen ++ [placeKey place])
            h1new h2new h3new h4new h5new
          rw [List.append_assoc] at hres
          exact hres

/-- Invariant of the pagination loop: a successful aggregation has
duplicate-free ids, is a sublist of the record stream the upstream supplied,
and keeps, for each id, the first accepted record of that stream. -/
lemma searchLoop_invariant (excluded : List String) (minr maxr : Nat) :
    ∀ (responses : List FetchOutcome) (stream res : List Place) (seen : List String),
      seen = res.map placeKey →
      (res.map placeKey).Nodup →
      res.Sublist stream →
      (∀ p ∈ res, stream.find? (keyMatch excluded minr p) = some p) →
      (∀ q ∈ stream, acceptsPlace excluded minr q = true → placeKey q ∈ seen) →
      ∀ l, searchLoop excluded minr maxr responses res seen = Except.ok l →
        (l.map placeKey).Nodup
        ∧ l.Sublist (stream ++ okStream responses)
        ∧ (∀ p ∈ l, (stream ++ okStream responses).find? (keyMatch excluded minr p) = some p) := by
  intro responses
  induction responses with
  | nil =>
    intro stream res seen h1 h2 h3 h4 h5 l hl
    rw [searchLoop_step, ite_self] at hl
    injection hl with hl2
    subst hl2
    have hsub : (res.take maxr).Sublist res := List.take_sublist maxr res
    refine ⟨((hsub.map placeKey).nodup h2), ?_, ?_⟩
    · exact (hsub.trans h3).trans (List.sublist_append_left stream _)
    · intro p hp
      exact find?_append_some _ (h4 p (hsub.subset hp))
  | cons r rest ih =>
    intro stream res seen h1 h2 h3 h4 h5 l hl
    rw [searchLoop_step] at hl
    by_cases hlen : res.length < maxr
    · rw [if_pos hlen] at hl
      cases r with
      | httpError status text => exact absurd hl (by simp)
      | netError msg => exact absurd hl (by simp)
      | ok places page_token =>
        replace hl : (if page_token = none ∨ places = [] then
            Except.ok ((processPage excluded minr places (res, seen)).1.take maxr)
          else
            searchLoop excluded minr maxr rest
              (processPage excluded minr places (res, seen)).1
              (processPage excluded minr places (res, seen)).2) = Except.ok l := hl
        obtain ⟨P1, P2, P3, P4, P5⟩ :=
          processPage_invariant excluded minr places stream res seen h1 h2 h3 h4 h5
        by_cases hbrk : page_token = none ∨ places = []
        · rw [if_pos hbrk] at hl
          injection hl with hl2
          subst hl2
          have hsub : ((processPage excluded minr places (res, seen)).1.take maxr).Sublist
              (processPage excluded minr places (res, seen)).1 := List.take_sublist _ _
          rw [okStream_cons, ← List.append_assoc]
          refine ⟨(hsub.map placeKey).nodup P2, ?_, ?_⟩
          · exact (hsub.trans P3).trans (List.sublist_append_left _ _)
          · intro p hp
            exact find?_append_some _ (P4 p (hsub.subset hp))
        · rw [if_neg hbrk] at hl
          have hres := ih (stream ++ places)
            (processPage excluded minr places (res, seen)).1
            (processPage excluded minr places (res, seen)).2
            P1 P2 P3 P4 P5 l hl
          rw [okStream_cons, ← List.append_assoc]
          exact hres
    · rw [if_neg hlen] at hl
      injection hl with hl2
      subst hl2
      have hsub : (res.take maxr).Sublist res := List.take_sublist maxr res
      refine ⟨(hsub.map placeKey).nodup h2, ?_, ?_⟩
      · exact (hsub.trans h3).trans (List.sublist_append_left stream _)
      · intro p hp
        exact find?_append_some _ (h4 p (hsub.subset hp))

/-- The per-page loop adds at most the page length to the accumulation. -/
lemma processPage_length (excluded : List String) (minr : Nat) :
    ∀ (ps res : List Place) (seen : List String),
      (processPage excluded minr ps (res, seen)).1.length ≤ res.length + ps.length := by
  intro ps
  induction ps with
  | nil => intro res seen; simp [processPage]
  | cons place rest ih =>
    intro res seen
    rw [processPage_cons]
    by_cases hid : placeKey place = "" ∨ placeKey place ∈ seen
    · rw [if_pos hid]
      have := ih res seen
      simp only [List.length_cons]
      omega
    · rw [if_neg hid]
      by_cases hex : _is_excluded place.displayName excluded = true
      · rw [if_pos hex]
        have := ih res seen
        simp only [List.length_cons]
        omega
      · rw [if_neg hex]
        by_cases hrev : 0 < minr ∧ place.userRatingCount.getD 0 < minr
        · rw [if_pos hrev]
          have := ih res seen
          simp only [List.length_cons]
          omega
        · rw [if_neg hrev]
          have := ih (res ++ [place]) (seen ++ [placeKey place])
          simp only [List.length_append, List.length_cons, List.length_nil] at this ⊢
          omega

/-- A successful aggregation is bounded by the cap and by the number of
records the upstream actually supplied. -/
lemma searchLoop_length (excluded : List String) (minr maxr : Nat) :
    ∀ (responses : List FetchOutcome) (res : List Place) (seen : List String) (l : List Place),
      searchLoop excluded minr maxr responses res seen = Except.ok l →
      l.length ≤ maxr ∧ l.length ≤ res.length + (okStream responses).length := by
  intro responses
  induction responses with
  | nil =>
    intro res seen l hl
    rw [searchLoop_step, ite_self] at hl
    injection hl with hl2
    subst hl2
    constructor
    · rw [List.length_take]; omega
    · rw [List.length_take]
      have := Nat.min_le_right maxr res.length
      omega
  | cons r rest ih =>
    intro res seen l hl
    rw [searchLoop_step] at hl
    by_cases hlen : res.length < maxr
    · rw [if_pos hlen] at hl
      cases r with
      | httpError status text => exact absurd hl (by simp)
      | netError msg => exact absurd hl (by simp)
      | ok places page_token =>
        replace hl : (if page_token = none ∨ places = [] then
            Except.ok ((processPage excluded minr places (res, seen)).1.take maxr)
          else
            searchLoop excluded minr maxr rest
              (processPage excluded minr places (res, seen)).1
              (processPage excluded minr places (res, seen)).2) = Except.ok l := hl
        by_cases hbrk : page_token = none ∨ places = []
        · rw [if_pos hbrk] at hl
          injection hl with hl2
          subst hl2
          have hpl := processPage_length excluded minr places res seen
          rw [okStream_cons]
          constructor
          · rw [List.length_take]; omega
          · rw [List.length_take]
            have h1 := Nat.min_le_right maxr (processPage excluded minr places (res, seen)).1.length
            simp only [List.length_append, pagePlaces]
            omega
        · rw [if_neg hbrk] at hl
          have hrec := ih (processPage excluded minr places (res, seen)).1
            (processPage excluded minr places (res, seen)).2 l hl
          have hpl := processPage_length excluded minr places res seen
          rw [okStream_cons]
          constructor
          · exact hrec.1
          · have := hrec.2
            simp only [List.length_append, pagePlaces] at this ⊢
            omega
    · rw [if_neg hlen] at hl
      injection hl with hl2
      subst hl2
      constructor
      · rw [List.length_take]; omega
      · rw [List.length_take]
        have := Nat.min_le_right maxr res.length
        omega

/-- The total record supply is bounded by pages times page size. -/
lemma okStream_length_bound :
    ∀ (responses : List FetchOutcome) (k : Nat),
      (∀ r ∈ responses, (pagePlaces r).length ≤ k) →
      (okStream responses).length ≤ responses.length * k := by
  intro responses
  induction responses with
  | nil => intro k h; simp [okStream]
  | cons r rest ih =>
    intro k h
    rw [okStream_cons, List.length_append]
    have h1 := h r (List.mem_cons_self r rest)
    have h2 := ih k (fun x hx => h x (List.mem_cons_of_mem r hx))
    have h3 : (rest.length + 1) * k = rest.length * k + k := Nat.succ_mul rest.length k
    simp only [List.length_cons]
    omega

/-! ### Claim C2 -/

/-- A record fixture with a fresh id, a neutral name and 10 reviews. -/
def mkPlaceFixture (i : Nat) : Place :=
  ⟨some ("p" ++ toString i), "Shop " ++ toString i, some 10⟩

/-- A full upstream page of 20 fresh records that always supplies a
continuation token. -/
def bigPageFixture (k : Nat) : FetchOutcome :=
  FetchOutcome.ok ((List.range 20).map (fun i => mkPlaceFixture (20 * k + i))) (some "token")

/-- Four full pages with tokens on every page: a cooperative upstream that
keeps paginating past the third page. -/
def bigResponses : List FetchOutcome :=
  [bigPageFixture 0, bigPageFixture 1, bigPageFixture 2, bigPageFixture 3]

/-- C2 counterexample: with a cap of 61 (exceeding the 20 x 3 = 60 page
budget) and an upstream that keeps supplying continuation tokens and
non-empty 20-record pages, search_places returns 61 records — more than 60 —
because the code never limits the number of pages it requests. -/
theorem C2_counterexample_exceeds_page_budget :
    (search_places [] 61 0 bigResponses).toOption.map List.length = some 61 ∧ 60 < 61 :=
  ⟨by decide, by decide⟩

/-- C2 (amended): search_places never returns more than max_results records,
and never more than the number of records the upstream actually supplies; in
particular the 20 x 3 = 60 bound holds whenever the upstream itself stops
after 3 pages of at most 20 records, but it is not enforced client-side
against an upstream that keeps paginating. -/
theorem C2_amended_cap_bound (kws : List String) (maxr minr : Nat)
    (responses : List FetchOutcome) (l : List Place)
    (hl : search_places kws maxr minr responses = Except.ok l) :
    l.length ≤ maxr
    ∧ l.length ≤ (okStream responses).length
    ∧ (responses.length ≤ 3 → (∀ r ∈ responses, (pagePlaces r).length ≤ 20) →
        l.length ≤ 60) := by
  have h := searchLoop_length (normalizeExcluded kws) minr maxr responses [] [] l hl
  refine ⟨h.1, by simpa using h.2, ?_⟩
  intro h3 h20
  have hb := okStream_length_bound responses 20 h20
  have hm : responses.length * 20 ≤ 3 * 20 := Nat.mul_le_mul_right 20 h3
  have h2 := h.2
  simp only [List.length_nil] at h2
  omega

/-- C2 witness: a one-page aggregation respects both bounds. -/
theorem C2_amended_cap_bound_witness :
    List.length [mkPlaceFixture 1] ≤ 60
    ∧ List.length [mkPlaceFixture 1]
        ≤ (okStream [FetchOutcome.ok [mkPlaceFixture 1] none]).length := by
  have h := C2_amended_cap_bound [] 60 0 [FetchOutcome.ok [mkPlaceFixture 1] none]
    [mkPlaceFixture 1] rfl
  exact ⟨h.1, h.2.1⟩

/-! ### Claim C3 -/

/-- C3: a successful aggregation contains no two records with the same id,
keeps the records in search-page return order (it is a sublist of the record
stream the upstream supplied), and for each returned record that record is
the first filter-accepted occurrence of its id in the stream. -/
theorem C3_dedup_first_wins (kws : List String) (maxr minr : Nat)
    (responses : List FetchOutcome) (l : List Place)
    (hl : search_places kws maxr minr responses = Except.ok l) :
    (l.map placeKey).Nodup
    ∧ l.Sublist (okStream responses)
    ∧ (∀ p ∈ l, (okStream responses).find?
        (keyMatch (normalizeExcluded kws) minr p) = some p) := by
  have h := searchLoop_invariant (normalizeExcluded kws) minr maxr responses [] [] []
    rfl (by simp) (List.nil_sublist _)
    (fun p hp => absurd hp (List.not_mem_nil p))
    (fun q hq => absurd hq (List.not_mem_nil q)) l hl
  simpa using h

/-- Two pages whose second page repeats an id of the first page. -/
def dupResponses : List FetchOutcome :=
  [FetchOutcome.ok [mkPlaceFixture 1, mkPlaceFixture 2] (some "t"),
   FetchOutcome.ok [mkPlaceFixture 1, mkPlaceFixture 3] none]

/-- C3 witness: the duplicate across pages is dropped and the output ids are
duplicate-free, in page order. -/
theorem C3_dedup_first_wins_witness :
    (([mkPlaceFixture 1, mkPlaceFixture 2, mkPlaceFixture 3].map placeKey).Nodup)
    ∧ [mkPlaceFixture 1, mkPlaceFixture 2, mkPlaceFixture 3].Sublist (okStream dupResponses) := by
  have h := C3_dedup_first_wins [] 60 0 dupResponses
    [mkPlaceFixture 1, mkPlaceFixture 2, mkPlaceFixture 3] rfl
  exact ⟨h.1, h.2.1⟩

/-! ### Claim C4 -/

/-- C4: a fresh record (id present, not yet seen) is accepted by the page
loop precisely when its lower-cased display name contains none of the
excluded keywords as a substring and, whenever min_reviews is positive, its
review count (0 when absent) reaches min_reviews; consequently every record
of a successful aggregation satisfies both filter conditions. -/
theorem C4_filter_acceptance :
    (∀ (excluded : List String) (minr : Nat) (place : Place) (res : List Place)
        (seen : List String),
      placeKey place ≠ "" → placeKey place ∉ seen →
      ((processPage excluded minr [place] (res, seen)).1 = res ++ [place] ↔
        ((∀ kw ∈ excluded, substrIn kw (lowerStr place.displayName) = false)
         ∧ (0 < minr → minr ≤ place.userRatingCount.getD 0))))
    ∧ (∀ (kws : List String) (maxr minr : Nat) (responses : List FetchOutcome)
        (l : List Place),
        search_places kws maxr minr responses = Except.ok l →
        ∀ p ∈ l,
          (∀ kw ∈ normalizeExcluded kws, substrIn kw (lowerStr p.displayName) = false)
          ∧ (0 < minr → minr ≤ p.userRatingCount.getD 0)) := by
  constructor
  · intro excluded minr place res seen hid hseen
    rw [processPage_cons, if_neg (by simp [hid, hseen])]
    by_cases hex : _is_excluded place.displayName excluded = true
    · rw [if_pos hex]
      constructor
      · intro habs
        have := congrArg List.length habs
        simp [processPage] at this
      · intro hr
        unfold _is_excluded at hex
        rw [List.any_eq_true] at hex
        obtain ⟨kw, hkw, hsub⟩ := hex
        have := hr.1 kw hkw
        rw [this] at hsub
        exact absurd hsub (by simp)
    · rw [if_neg hex]
      by_cases hrev : 0 < minr ∧ place.userRatingCount.getD 0 < minr
      · rw [if_pos hrev]
        constructor
        · intro habs
          have := congrArg List.length habs
          simp [processPage] at this
        · intro hr
          have := hr.2 hrev.1
          omega
      · rw [if_neg hrev]
        constructor
        · intro _
          constructor
          · intro kw hkw
            have hex2 : _is_excluded place.displayName excluded = false :=
              Bool.eq_false_iff.mpr hex
            unfold _is_excluded at hex2
            rw [List.any_eq_false] at hex2
            simpa using hex2 kw hkw
          · intro hpos
            by_contra hlt
            push_neg at hlt
            exact hrev ⟨hpos, hlt⟩
        · intro _
          rfl
  · intro kws maxr minr responses l hl p hp
    have h := searchLoop_invariant (normalizeExcluded kws) minr maxr responses [] [] []
      rfl (by simp) (List.nil_sublist _)
      (fun q hq => absurd hq (List.not_mem_nil q))
      (fun q hq => absurd hq (List.not_mem_nil q)) l hl
    have hfind := h.2.2 p hp
    rw [List.nil_append] at hfind
    have hkm := List.find?_some hfind
    have hacc := ((Bool.and_eq_true _ _).mp hkm).1
    obtain ⟨_, hex, hrev⟩ := (acceptsPlace_true_iff (normalizeExcluded kws) minr p).mp hacc
    constructor
    · intro kw hkw
      unfold _is_excluded at hex
      rw [List.any_eq_false] at hex
      simpa using hex kw hkw
    · intro hpos
      by_contra hlt
      push_neg at hlt
      exact hrev ⟨hpos, hlt⟩

/-- A record passing both filters. -/
def acceptPlaceFixture : Place := ⟨some "x1", "Bistro Le Marais", some 12⟩

/-- C4 witness: the fixture is accepted exactly because both filter
conditions hold. -/
theorem C4_filter_acceptance_witness :
    (processPage ["pizza"] 3 [acceptPlaceFixture] ([], [])).1 = [acceptPlaceFixture] :=
  (C4_filter_acceptance.1 ["pizza"] 3 acceptPlaceFixture [] [] (by decide)
    (by simp)).mpr ⟨by decide, by decide⟩

/-! ### Claim C5 -/

/-- C5: a record rejected by the name-exclusion or review-count filter
leaves both the accumulation and the seen-id set unchanged; the seen-id set
grows only when a record with a fresh, present id passes both filters, and
then exactly by that id. -/
theorem C5_rejected_not_recorded (excluded : List String) (minr : Nat) (place : Place)
    (res : List Place) (seen : List String) :
    ((_is_excluded place.displayName excluded = true
      ∨ (0 < minr ∧ place.userRatingCount.getD 0 < minr)) →
      processPage excluded minr [place] (res, seen) = (res, seen))
    ∧ ((processPage excluded minr [place] (res, seen)).2 ≠ seen →
        placeKey place ≠ "" ∧ placeKey place ∉ seen
        ∧ _is_excluded place.displayName excluded = false
        ∧ ¬(0 < minr ∧ place.userRatingCount.getD 0 < minr)
        ∧ (processPage excluded minr [place] (res, seen)).2 = seen ++ [placeKey place]) := by
  constructor
  · intro h
    rw [processPage_cons]
    by_cases hid : placeKey place = "" ∨ placeKey place ∈ seen
    · rw [if_pos hid]
      rfl
    · rw [if_neg hid]
      rcases h with h | h
      · rw [if_pos h]
        rfl
      · by_cases hex : _is_excluded place.displayName excluded = true
        · rw [if_pos hex]
          rfl
        · rw [if_neg hex, if_pos h]
          rfl
  · intro hne
    rw [processPage_cons] at hne ⊢
    by_cases hid : placeKey place = "" ∨ placeKey place ∈ seen
    · rw [if_pos hid] at hne
      exact absurd rfl hne
    · rw [if_neg hid] at hne ⊢
      by_cases hex : _is_excluded place.displayName excluded = true
      · rw [if_pos hex] at hne
        exact absurd rfl hne
      · rw [if_neg hex] at hne ⊢
        by_cases hrev : 0 < minr ∧ place.userRatingCount.getD 0 < minr
        · rw [if_pos hrev] at hne
          exact absurd rfl hne
        · rw [if_neg hrev] at hne ⊢
          push_neg at hid
          exact ⟨hid.1, hid.2, Bool.eq_false_iff.mpr hex, hrev, rfl⟩

/-- A record whose name contains the excluded keyword as a substring. -/
def rejectedPlaceFixture : Place := ⟨some "x2", "Pizzaland Express", some 50⟩

/-- C5 witness: the name-filtered record changes neither the accumulation
nor the seen-id set. -/
theorem C5_rejected_not_recorded_witness :
    processPage ["pizza"] 0 [rejectedPlaceFixture] ([], []) = ([], []) :=
  (C5_rejected_not_recorded ["pizza"] 0 rejectedPlaceFixture [] []).1 (Or.inl (by decide))

/-! ### Claim C8 -/

/-- C8: when the pagination loop is still requesting pages, an HTTP-level
error response makes search_places raise the API error message (carrying the
upstream status and text) and a network-level error raise the network error
message, in both cases without returning any partial results; the two
message formats are never equal. -/
theorem C8_fail_fast_distinct_errors (excluded kws : List String) (minr maxr status : Nat)
    (text msg : String) (responses : List FetchOutcome) (res : List Place)
    (seen : List String) :
    (res.length < maxr →
      searchLoop excluded minr maxr (FetchOutcome.httpError status text :: responses) res seen
        = Except.error (apiErrorMessage status text)
      ∧ searchLoop excluded minr maxr (FetchOutcome.netError msg :: responses) res seen
        = Except.error (networkErrorMessage msg))
    ∧ (0 < maxr →
        search_places kws maxr minr (FetchOutcome.httpError status text :: responses)
          = Except.error (apiErrorMessage status text))
    ∧ apiErrorMessage status text ≠ networkErrorMessage msg := by
  refine ⟨?_, ?_, ?_⟩
  · intro hlen
    constructor
    · rw [searchLoop_step, if_pos hlen]
    · rw [searchLoop_step, if_pos hlen]
  · intro hmax
    unfold search_places
    rw [searchLoop_step, if_pos (by simpa using hmax)]
  · intro h
    have h2 : ('E' :: 'r' :: 'r' :: 'e' :: 'u' :: 'r' :: ' ' :: 'G' ::
        ("oogle Places API (".data ++ ((toString status).data ++ (") : ".data ++ text.data))))
        = ('E' :: 'r' :: 'r' :: 'e' :: 'u' :: 'r' :: ' ' :: 'r' ::
        ("éseau : ".data ++ msg.data)) := congrArg String.data h
    simp at h2

/-- C8 witness: an HTTP 429 on the first page request aborts the whole
aggregation with the API message, which differs from the network message. -/
theorem C8_fail_fast_distinct_errors_witness :
    search_places [] 60 0 [FetchOutcome.httpError 429 "RESOURCE_EXHAUSTED"]
      = Except.error (apiErrorMessage 429 "RESOURCE_EXHAUSTED")
    ∧ apiErrorMessage 429 "RESOURCE_EXHAUSTED" ≠ networkErrorMessage "connection timeout" := by
  have h := C8_fail_fast_distinct_errors [] [] 0 60 429 "RESOURCE_EXHAUSTED"
    "connection timeout" [] [] []
  exact ⟨h.2.1 (by decide), h.2.2⟩

/-! ### Helper lemmas: enrichment -/

/-- dict.update with the empty dict is the identity (the failure path of the
detail enricher). -/
lemma dictUpdate_nil (d : RecordDict) : dictUpdate d [] = d := by
  unfold dictUpdate
  induction d with
  | nil => rfl
  | cons kv tl ih => simp [List.lookup]

/-- Looking up the overwritten key in the replace-in-place map. -/
lemma lookup_mapSet (d : RecordDict) (k v : String) :
    (d.map (fun kv => if kv.1 = k then (k, v) else kv)).lookup k
      = if (d.lookup k).isSome then some v else none := by
  induction d with
  | nil => simp [List.lookup]
  | cons kv tl ih =>
    obtain ⟨k1, v1⟩ := kv
    rw [List.map_cons]
    by_cases hk : k1 = k
    · have h1 : (if (k1, v1).1 = k then (k, v) else (k1, v1)) = (k, v) := if_pos hk
      rw [h1]
      have hb : (k == k1) = true := by rw [beq_iff_eq]; exact hk.symm
      simp [List.lookup, hb]
    · have h1 : (if (k1, v1).1 = k then (k, v) else (k1, v1)) = (k1, v1) := if_neg hk
      rw [h1]
      have hb : (k == k1) = false := by
        rw [beq_eq_false_iff_ne]
        exact fun he => hk he.symm
      have h4 : List.lookup k ((k1, v1) :: tl) = List.lookup k tl := by
        simp [List.lookup, hb]
      have h5 : List.lookup k
            ((k1, v1) :: List.map (fun kv => if kv.1 = k then (k, v) else kv) tl)
          = List.lookup k (List.map (fun kv => if kv.1 = k then (k, v) else kv) tl) := by
        simp [List.lookup, hb]
      rw [h5, h4, ih]

/-- Looking up a key appended to a dict that did not hold it. -/
lemma lookup_append_new (d : RecordDict) (k v : String) (h : d.lookup k = none) :
    (d ++ [(k, v)]).lookup k = some v := by
  induction d with
  | nil => simp [List.lookup]
  | cons kv tl ih =>
    obtain ⟨k1, v1⟩ := kv
    by_cases hk : k1 = k
    · have hb : (k == k1) = true := by rw [beq_iff_eq]; exact hk.symm
      simp [List.lookup, hb] at h
    · have hb : (k == k1) = false := by
        rw [beq_eq_false_iff_ne]
        exact fun he => hk he.symm
      have h2 : List.lookup k tl = none := by simpa [List.lookup, hb] using h
      rw [List.cons_append]
      have h3 : List.lookup k ((k1, v1) :: (tl ++ [(k, v)]))
          = List.lookup k (tl ++ [(k, v)]) := by simp [List.lookup, hb]
      rw [h3]
      exact ih h2

/-- Looking up the key just assigned by dict assignment. -/
lemma dictSet_lookup (d : RecordDict) (k v : String) : (dictSet d k v).lookup k = some v := by
  unfold dictSet
  by_cases h : (d.lookup k).isSome
  · rw [if_pos h, lookup_mapSet, if_pos h]
  · rw [if_neg h]
    exact lookup_append_new d k v (Option.not_isSome_iff_eq_none.mp h)

/-- Closed form of the detail-enrichment loop: the records are mapped
item-wise and the progress callback fires once per record with the running
index and the total. -/
lemma enrichDetailsLoop_eq (detailsFor : String → DetailOutcome) (total : Nat) :
    ∀ (places : List RecordDict) (i : Nat),
      enrichDetailsLoop detailsFor total i places =
        (places.map (fun place =>
            if dictGet place "id" "" ≠ "" then
              dictUpdate place (get_place_details detailsFor (dictGet place "id" ""))
            else place),
         (List.range places.length).map (fun k => (i + k + 1, total))) := by
  intro places
  induction places with
  | nil => intro i; rfl
  | cons place rest ih =>
    intro i
    have hstep : enrichDetailsLoop detailsFor total i (place :: rest)
        = ((if dictGet place "id" "" ≠ "" then
              dictUpdate place (get_place_details detailsFor (dictGet place "id" ""))
            else place) :: (enrichDetailsLoop detailsFor total (i + 1) rest).1,
           (i + 1, total) :: (enrichDetailsLoop detailsFor total (i + 1) rest).2) := rfl
    rw [hstep, ih (i + 1)]
    refine Prod.ext ?_ ?_
    · dsimp only
      rw [List.map_cons]
    · dsimp only
      rw [List.length_cons, List.range_succ_eq_map, List.map_cons, List.map_map]
      congr 1
      apply List.map_congr_left
      intro k _
      simp only [Function.comp_apply, Prod.mk.injEq]
      exact ⟨by omega, trivial⟩

/-- Closed form of the email-enrichment loop. -/
lemma enrichEmailsLoop_eq (fetch : String → Option Page) (total : Nat) :
    ∀ (places : List RecordDict) (i : Nat),
      enrichEmailsLoop fetch total i places =
        (places.map (fun place =>
            dictSet place "email"
              (scrape_email_from_website fetch (dictGet place "websiteUri" ""))),
         (List.range places.length).map (fun k => (i + k + 1, total))) := by
  intro places
  induction places with
  | nil => intro i; rfl
  | cons place rest ih =>
    intro i
    have hstep : enrichEmailsLoop fetch total i (place :: rest)
        = (dictSet place "email"
             (scrape_email_from_website fetch (dictGet place "websiteUri" ""))
            :: (enrichEmailsLoop fetch total (i + 1) rest).1,
           (i + 1, total) :: (enrichEmailsLoop fetch total (i + 1) rest).2) := rfl
    rw [hstep, ih (i + 1)]
    refine Prod.ext ?_ ?_
    · dsimp only
      rw [List.map_cons]
    · dsimp only
      rw [List.length_cons, List.range_succ_eq_map, List.map_cons, List.map_map]
      congr 1
      apply List.map_congr_left
      intro k _
      simp only [Function.comp_apply, Prod.mk.injEq]
      exact ⟨by omega, trivial⟩

/-! ### Claim C9 -/

/-- C9: enrich_with_details returns one record per input record; a record
whose detail lookup fails (or that has no id) comes back unchanged, a record
with an id whose lookup succeeds comes back with the details merged over it,
and the progress callback fires exactly once per record with
(completedCount, total), failures included. -/
theorem C9_detail_isolation_progress (detailsFor : String → DetailOutcome)
    (places : List RecordDict) :
    (enrich_with_details detailsFor places).1.length = places.length
    ∧ (enrich_with_details detailsFor places).2
        = (List.range places.length).map (fun k => (k + 1, places.length))
    ∧ (∀ (i : Nat) (place : RecordDict), places[i]? = some place →
        (detailsFor (dictGet place "id" "") = DetailOutcome.failure →
          (enrich_with_details detailsFor places).1[i]? = some place)
        ∧ (∀ d, dictGet place "id" "" ≠ "" →
            detailsFor (dictGet place "id" "") = DetailOutcome.success d →
            (enrich_with_details detailsFor places).1[i]? = some (dictUpdate place d))) := by
  unfold enrich_with_details
  rw [enrichDetailsLoop_eq]
  refine ⟨by simp, by simp, ?_⟩
  intro i place hp
  constructor
  · intro hfail
    rw [List.getElem?_map, hp]
    by_cases hpid : dictGet place "id" "" ≠ ""
    · simp [hpid, get_place_details, hfail, dictUpdate_nil]
    · simp [hpid]
  · intro d hpid hsucc
    rw [List.getElem?_map, hp]
    simp [hpid, get_place_details, hsucc]

/-- A detail source that fails for id a and succeeds for id b. -/
def detailsFixture : String → DetailOutcome := fun pid =>
  if pid = "b" then DetailOutcome.success [("telephone", "01 02"), ("extra", "x")]
  else DetailOutcome.failure

/-- First record: lookup will fail. -/
def recFixture1 : RecordDict := [("id", "a"), ("nom", "Alpha")]

/-- Second record: lookup will succeed. -/
def recFixture2 : RecordDict := [("id", "b"), ("telephone", "old")]

/-- C9 witness: the spec example — first lookup fails, second succeeds, both
records come back (the first unchanged) and the callback fires exactly
twice. -/
theorem C9_detail_isolation_progress_witness :
    (enrich_with_details detailsFixture [recFixture1, recFixture2]).2 = [(1, 2), (2, 2)]
    ∧ (enrich_with_details detailsFixture [recFixture1, recFixture2]).1[0]?
        = some recFixture1 := by
  have h := C9_detail_isolation_progress detailsFixture [recFixture1, recFixture2]
  exact ⟨h.2.1.trans (by decide), (h.2.2 0 recFixture1 rfl).1 (by decide)⟩

/-! ### Claim C10 -/

/-- C10: an empty or non-http website URL makes scrape_email_from_website
return the empty string without any page fetch; enrich_with_emails sets the
email field of every record from its websiteUri (empty string included), so
every output record carries an email field. -/
theorem C10_email_guard_total (fetch : String → Option Page) (url : String)
    (places : List RecordDict) :
    ((url = "" ∨ startsWithStr "http" url = false) → scrape_email_from_website fetch url = "")
    ∧ (enrich_with_emails fetch places).1
        = places.map (fun place =>
            dictSet place "email"
              (scrape_email_from_website fetch (dictGet place "websiteUri" "")))
    ∧ (∀ r ∈ (enrich_with_emails fetch places).1, (r.lookup "email").isSome = true) := by
  have hchar : (enrich_with_emails fetch places).1
      = places.map (fun place =>
          dictSet place "email"
            (scrape_email_from_website fetch (dictGet place "websiteUri" ""))) := by
    unfold enrich_with_emails
    rw [enrichEmailsLoop_eq]
  refine ⟨?_, hchar, ?_⟩
  · intro h
    unfold scrape_email_from_website
    rw [if_pos h]
  · intro r hr
    rw [hchar] at hr
    obtain ⟨place, _, hr2⟩ := List.mem_map.mp hr
    rw [← hr2, dictSet_lookup]
    rfl

/-- C10 witness: the empty URL yields the empty string and a record with no
website still receives an (empty) email field. -/
theorem C10_email_guard_total_witness :
    scrape_email_from_website shopFetch "" = ""
    ∧ (enrich_with_emails shopFetch [[("nom", "X")]]).1 = [[("nom", "X"), ("email", "")]] := by
  have h := C10_email_guard_total shopFetch "" [[("nom", "X")]]
  exact ⟨h.1 (Or.inl rfl), h.2.1.trans (by decide)⟩

end Scraper
